import Mathlib

/-!
Shallow embedding of the dual-band impedance-matching core
(`src/core/matcher.py` of Asanilo/dual_band_matcher) and verification of the
specification claims against it.

Modelling conventions: IEEE floats are modelled by real numbers, Python
complex values by `ℂ`, Python `None` by `Option`, and a stage returning
`False` by an `Option`-valued function returning `none`.  Division follows
Lean's total-field convention (`x / 0 = 0`); every place where this matters
is on a measure-zero degenerate configuration and is discussed in the
accompanying results.
-/

open Real Complex

noncomputable section

/-- Smith-chart region tag, mirroring the strings `'a'`, `'b'`, `'c'`
assigned in `check_region_and_adjust` (matcher.py lines 115-120). -/
inductive Region
  | a
  | b
  | c
  deriving DecidableEq, Repr

/-- Stub kind: `opn` mirrors the Python string `'Open'`, `sht` mirrors `'Short'`. -/
inductive StubKind
  | opn
  | sht
  deriving DecidableEq, BEq, Repr

/-- Frequency fraction `p1 = f1 / (f1 + f2)` (matcher.py line 23). -/
def pfrac1 (f1 f2 : ℝ) : ℝ := f1 / (f1 + f2)

/-- Frequency fraction `p2 = f2 / (f1 + f2)` (matcher.py line 24). -/
def pfrac2 (f1 f2 : ℝ) : ℝ := f2 / (f1 + f2)

/-- Transmission-line transformation performed by `apply_aux_line` on one load
(matcher.py lines 53-55): `Z_p (Z_L + j Z_p tan θ) / (Z_p + j Z_L tan θ)`,
where `θ` is the already frequency-scaled electrical length. -/
def apply_aux_line (ZL : ℂ) (Zp : ℝ) (thScaled : ℝ) : ℂ :=
  Zp * (ZL + Complex.I * Zp * Real.tan thScaled) /
    (Zp + Complex.I * ZL * Real.tan thScaled)

/-- Radicand of the square root defining `Z1` in `calculate_conjugate_transform`
(matcher.py lines 76-78). -/
def conj_radicand (ZL1 ZL2 : ℂ) : ℝ :=
  ZL1.re * ZL2.re + ZL1.im * ZL2.im +
    (ZL1.im + ZL2.im) / (ZL2.re - ZL1.re) * (ZL1.re * ZL2.im - ZL2.re * ZL1.im)

/-- The stage-1 electrical length before the `k·π` branch offset is added
(matcher.py lines 85-95): single-argument arctangent, `π/2` on a near-zero
denominator, plus `π` if the raw angle is negative. -/
def conj_theta_base (ZL1 ZL2 : ℂ) : ℝ :=
  let Z1 := Real.sqrt (conj_radicand ZL1 ZL2)
  let numerator := Z1 * (ZL2.re - ZL1.re)
  let denominator := ZL2.re * ZL1.im - ZL1.re * ZL2.im
  let raw := if |denominator| < 1e-9 then π / 2 else Real.arctan (numerator / denominator)
  if raw < 0 then raw + π else raw

/-- Result record of the conjugate-match stage: `Z1`, `theta1` (radians at the
design frequency) and the input impedance `Z_in1` at `f1`. -/
structure ConjResult where
  Z1 : ℝ
  theta1 : ℝ
  Z_in1 : ℂ

/-- `calculate_conjugate_transform` (matcher.py lines 66-103).  `pf1` is `p1`,
`k` is the `additional_pi` branch parameter.  Returns `none` exactly where the
Python method returns `False`. -/
def calculate_conjugate_transform (ZL1 ZL2 : ℂ) (pf1 : ℝ) (k : ℕ) : Option ConjResult :=
  if |ZL2.re - ZL1.re| < 1e-6 then none
  else if conj_radicand ZL1 ZL2 < 0 then none
  else
    let Z1 := Real.sqrt (conj_radicand ZL1 ZL2)
    let theta1 := conj_theta_base ZL1 ZL2 + k * π
    let thf1 := theta1 * pf1
    some ⟨Z1, theta1,
      Z1 * (ZL1 + Complex.I * Z1 * Real.tan thf1) /
        (Z1 + Complex.I * ZL1 * Real.tan thf1)⟩

/-- Smith-chart region classification (matcher.py lines 109-120):
`r = Re(Z_in1/Z0)`, `g = Re(1/(Z_in1/Z0))`; `a` if `r > 1`, else `b` if
`g > 1`, else `c`. -/
def classify_region (Zin1 : ℂ) (Z0 : ℝ) : Region :=
  let z := Zin1 / (Z0 : ℂ)
  if 1 < z.re then Region.a
  else if 1 < (1 / z).re then Region.b
  else Region.c

/-- Target stub susceptance `-Im(1/Z_in1)` of the region-c remediation
(matcher.py line 133). -/
def aux_targetB (Zin1 : ℂ) : ℝ := -(1 / Zin1).im

/-- Tried open-stub admittance of the region-c remediation (matcher.py
line 138): `target_B / tan(p1 π)` guarded by `|tan| > 1e-9`, else `0`. -/
def auxY2open (Zin1 : ℂ) (pf1 : ℝ) : ℝ :=
  if 1e-9 < |Real.tan (pf1 * π)| then aux_targetB Zin1 / Real.tan (pf1 * π) else 0

/-- Tried short-stub admittance of the region-c remediation (matcher.py
line 141): `-target_B * tan(p1 π)`. -/
def auxY2short (Zin1 : ℂ) (pf1 : ℝ) : ℝ := -aux_targetB Zin1 * Real.tan (pf1 * π)

/-- Result of `_add_auxiliary_stub`: stub kind, characteristic admittance `Y2`,
and the remediated input impedance. -/
structure StubAdjust where
  typ : StubKind
  Y2 : ℝ
  Zin : ℂ

/-- `_add_auxiliary_stub` (matcher.py lines 124-159).  Prefers the open stub,
then the short stub; otherwise falls back to the dummy admittance `0.02` with
zero stub admittance added. -/
def add_auxiliary_stub (Zin1 : ℂ) (pf1 : ℝ) : StubAdjust :=
  let Yin1 := 1 / Zin1
  let t := Real.tan (pf1 * π)
  if 0 < auxY2open Zin1 pf1 then
    ⟨StubKind.opn, auxY2open Zin1 pf1,
      1 / (Yin1 + Complex.I * auxY2open Zin1 pf1 * t)⟩
  else if 0 < auxY2short Zin1 pf1 then
    ⟨StubKind.sht, auxY2short Zin1 pf1,
      1 / (Yin1 + -(Complex.I * auxY2short Zin1 pf1) / t)⟩
  else
    ⟨StubKind.opn, 0.02, 1 / (Yin1 + 0)⟩

/-- `check_region_and_adjust` (matcher.py lines 105-122): classifies the
region; in region `c` with remediation allowed it adds the auxiliary stub and
forces region `a`.  Returns region, the optional aux stub `(kind, Y2)` and the
matched input impedance. -/
def check_region_and_adjust (Zin1 : ℂ) (Z0 : ℝ) (pf1 : ℝ) (allowAuxStub : Bool) :
    Region × Option (StubKind × ℝ) × ℂ :=
  match classify_region Zin1 Z0 with
  | Region.a => (Region.a, none, Zin1)
  | Region.b => (Region.b, none, Zin1)
  | Region.c =>
      if allowAuxStub then
        let s := add_auxiliary_stub Zin1 pf1
        (Region.a, some (s.typ, s.Y2), s.Zin)
      else (Region.c, none, Zin1)

/-- Result record of `calculate_matching_network`: the equivalent single-line
parameters `Z_T1` and `theta_T1`. -/
structure PiLine where
  Z_T1 : ℝ
  theta_T1 : ℝ

/-- `calculate_matching_network` (matcher.py lines 161-188).  Fails exactly on
a negative radicand; the angle denominator near zero gives `π/2`; a
non-positive angle is shifted by `π`. -/
def calculate_matching_network (Zin : ℂ) (ZS : ℝ) : Option PiLine :=
  let R := Zin.re
  let X := Zin.im
  let term := X ^ 2 * ZS / (R - ZS) + R * ZS
  if term < 0 then none
  else
    let ZT1 := Real.sqrt term
    let den := X * ZS
    let th := if |den| < 1e-9 then π / 2 else Real.arctan (ZT1 * (ZS - R) / den)
    some ⟨ZT1, if th ≤ 0 then th + π else th⟩

/-- Pi-network series-line impedance `Z_m = Z_T1 sin θ_T1 / sin(p1 π)`
(matcher.py line 195). -/
def pi_Z_m (ZT1 thT1 pf1 : ℝ) : ℝ := ZT1 * Real.sin thT1 / Real.sin (pf1 * π)

/-- Required pi-network shunt susceptance `B_n1` (matcher.py line 198). -/
def pi_B_n1 (ZT1 thT1 pf1 : ℝ) : ℝ :=
  (Real.cos (pf1 * π) - Real.cos thT1) / (pi_Z_m ZT1 thT1 pf1 * Real.sin (pf1 * π))

/-- Tried open-stub admittance of the pi network (matcher.py line 202). -/
def piY_open (ZT1 thT1 pf1 : ℝ) : ℝ :=
  if 1e-9 < |Real.tan (pf1 * π)| then pi_B_n1 ZT1 thT1 pf1 / Real.tan (pf1 * π) else 0

/-- Tried short-stub admittance of the pi network (matcher.py line 203). -/
def piY_short (ZT1 thT1 pf1 : ℝ) : ℝ := -pi_B_n1 ZT1 thT1 pf1 * Real.tan (pf1 * π)

/-- Result record of `synthesize_pi_network`. -/
structure PiSynth where
  Z_m : ℝ
  stub_type : StubKind
  Y_n : ℝ
  Z_n : ℝ

/-- `synthesize_pi_network` (matcher.py lines 190-216), including the fallback
branch `Y_n = Y_open if Y_open != 0 else 0.02`. -/
def synthesize_pi_network (ZT1 thT1 pf1 : ℝ) : PiSynth :=
  let Zm := pi_Z_m ZT1 thT1 pf1
  if 0 < piY_open ZT1 thT1 pf1 then
    ⟨Zm, StubKind.opn, piY_open ZT1 thT1 pf1, 1 / piY_open ZT1 thT1 pf1⟩
  else if 0 < piY_short ZT1 thT1 pf1 then
    ⟨Zm, StubKind.sht, piY_short ZT1 thT1 pf1, 1 / piY_short ZT1 thT1 pf1⟩
  else
    let Yn := if piY_open ZT1 thT1 pf1 ≠ 0 then piY_open ZT1 thT1 pf1 else 0.02
    ⟨Zm, StubKind.opn, Yn, 1 / Yn⟩

/-- Verification-stage line primitive `tline_input_z` (matcher.py lines
243-248), with the quarter-wave degenerate branch. -/
def tline_input_z (zl : ℂ) (zc : ℝ) (th : ℝ) : ℂ :=
  if |Real.cos th| < 1e-9 then
    if Complex.abs zl < 1e-9 then ((1e9 : ℝ) : ℂ) else (zc : ℂ) ^ 2 / zl
  else
    zc * (zl + zc * (Complex.I * Real.tan th)) / (zc + zl * (Complex.I * Real.tan th))

/-- Verification-stage stub primitive `stub_admittance` (matcher.py lines
250-258), with the degenerate branches at `cos θ ≈ 0` and `sin θ ≈ 0`. -/
def stub_admittance (yc : ℝ) (th : ℝ) (isOpn : Bool) : ℂ :=
  if |Real.cos th| < 1e-9 then
    if isOpn then Complex.I * (1e9 : ℝ) else 0
  else if |Real.sin th| < 1e-9 then
    if isOpn then 0 else -(Complex.I * (1e9 : ℝ))
  else if isOpn then Complex.I * yc * Real.tan th
  else -(Complex.I * yc) / Real.tan th

/-- Reflection-coefficient to VSWR conversion (matcher.py lines 291-292):
`ρ = (z - Z0)/(z + Z0)`, `VSWR = (1 + |ρ|)/(1 - |ρ|)`. -/
def vswr_of (z : ℂ) (Z0 : ℝ) : ℝ :=
  let rho := (z - (Z0 : ℂ)) / (z + (Z0 : ℂ))
  (1 + Complex.abs rho) / (1 - Complex.abs rho)

/-- One frequency pass of `verify_metrics` (matcher.py lines 260-293): replay
aux line, stage-1 line, optional aux stub, then shunt-series-shunt pi network,
each at the frequency-scaled angle, and convert to VSWR. -/
def verify_vswr (f1 f2 : ℝ) (ZLorig : ℂ) (aux : Option (ℝ × ℝ)) (Z1v th1 : ℝ)
    (auxStub : Option (StubKind × ℝ)) (Zm : ℝ) (stubT : StubKind) (Yn : ℝ)
    (Z0 f : ℝ) : ℝ :=
  let scale := f / (f1 + f2)
  let z0 := match aux with
    | some q => tline_input_z ZLorig q.1 (q.2 * scale)
    | none => ZLorig
  let z1 := tline_input_z z0 Z1v (th1 * scale)
  let z2 := match auxStub with
    | some s => 1 / (1 / z1 + stub_admittance s.2 (π * scale) (s.1 == StubKind.opn))
    | none => z1
  let ypi := stub_admittance Yn (π * scale) (stubT == StubKind.opn)
  let z3 := 1 / (1 / z2 + ypi)
  let z4 := tline_input_z z3 Zm (π * scale)
  let z5 := 1 / (1 / z4 + ypi)
  vswr_of z5 Z0

/-- A finished design candidate: the per-grid-point record collected by
`find_all_designs` (matcher.py lines 218-237 and 328-335).  Angles are stored
in radians (`get_design_parameters` converts them to degrees for display). -/
structure DesignCandidate where
  f_design : ℝ
  region : Region
  aux_line : Option (ℝ × ℝ)
  Z1 : ℝ
  theta1 : ℝ
  aux_stub : Option (StubKind × ℝ)
  Z_T1 : ℝ
  theta_T1 : ℝ
  Z_m : ℝ
  stub_type : StubKind
  Y_n : ℝ
  Z_n : ℝ
  VSWR_f1 : ℝ
  VSWR_f2 : ℝ

/-- The load as seen after the optional auxiliary line (matcher.py lines
315-316): applied only when the grid angle is positive, with characteristic
impedance fixed at `50` and angle `θ_deg · π/180` scaled by `pf`. -/
def aux_applied_load (ZL : ℂ) (thAuxDeg : ℕ) (pf : ℝ) : ℂ :=
  if 0 < thAuxDeg then apply_aux_line ZL 50 ((thAuxDeg : ℝ) * π / 180 * pf) else ZL

/-- One grid point of the search loop body (matcher.py lines 311-335): run the
pipeline, returning `none` when a fallible stage fails and the finished
`DesignCandidate` otherwise. -/
def processPoint (f1 f2 : ℝ) (ZL1 ZL2 : ℂ) (Z0 : ℝ) (allowAuxStub : Bool)
    (thAuxDeg k : ℕ) : Option DesignCandidate :=
  let pf1 := pfrac1 f1 f2
  let pf2 := pfrac2 f1 f2
  let auxInfo : Option (ℝ × ℝ) :=
    if 0 < thAuxDeg then some (50, (thAuxDeg : ℝ) * π / 180) else none
  match calculate_conjugate_transform (aux_applied_load ZL1 thAuxDeg pf1)
      (aux_applied_load ZL2 thAuxDeg pf2) pf1 k with
  | none => none
  | some d =>
    match calculate_matching_network
        (check_region_and_adjust d.Z_in1 Z0 pf1 allowAuxStub).2.2 Z0 with
    | none => none
    | some m =>
      let adj := check_region_and_adjust d.Z_in1 Z0 pf1 allowAuxStub
      let s := synthesize_pi_network m.Z_T1 m.theta_T1 pf1
      some
        { f_design := f1 + f2
          region := adj.1
          aux_line := auxInfo
          Z1 := d.Z1
          theta1 := d.theta1
          aux_stub := adj.2.1
          Z_T1 := m.Z_T1
          theta_T1 := m.theta_T1
          Z_m := s.Z_m
          stub_type := s.stub_type
          Y_n := s.Y_n
          Z_n := s.Z_n
          VSWR_f1 := verify_vswr f1 f2 ZL1 auxInfo d.Z1 d.theta1 adj.2.1 s.Z_m
            s.stub_type s.Y_n Z0 f1
          VSWR_f2 := verify_vswr f1 f2 ZL2 auxInfo d.Z1 d.theta1 adj.2.1 s.Z_m
            s.stub_type s.Y_n Z0 f2 }

/-- The auxiliary-line angle grid (matcher.py lines 304-307):
`range(0, 180, 5)` when scanning, else `[0]`. -/
def theta_aux_range (scan : Bool) : List ℕ :=
  if scan then (List.range 36).map (fun i => 5 * i) else [0]

/-- The full search grid: angle grid × branch `k ∈ {0, 1}` (matcher.py lines
309-312), in loop order. -/
def searchGrid (scan : Bool) : List (ℕ × ℕ) :=
  (theta_aux_range scan).flatMap (fun th => [(th, 0), (th, 1)])

/-- `find_all_designs` (matcher.py lines 297-337): run every grid point and
collect the successful candidates in grid order. -/
def find_all_designs (f1 f2 : ℝ) (ZL1 ZL2 : ℂ) (Z0 : ℝ)
    (allowAuxStub scanAuxLine : Bool) : List DesignCandidate :=
  (searchGrid scanAuxLine).filterMap fun q =>
    processPoint f1 f2 ZL1 ZL2 Z0 allowAuxStub q.1 q.2

/-- Concrete load of the boundary counterexample input: `Z_L1 = 40`. -/
def ZA1 : ℂ := 40

/-- Concrete load of the boundary counterexample input: `Z_L2 = 80`. -/
def ZA2 : ℂ := 80

/-- The candidate emitted at grid point `(θ_aux, k) = (0, 0)` of
`find_all_designs 1 2 40 80 50 (allow_aux_stub := False) (scan := False)`:
the conjugate stage lands exactly on the `g = 1` boundary circle, the
pi-network radicand is exactly `0`, and the point is emitted with region `c`
and degenerate VSWR. -/
def cA : DesignCandidate :=
  { f_design := 3
    region := Region.c
    aux_line := none
    Z1 := Real.sqrt 3200
    theta1 := π / 2
    aux_stub := none
    Z_T1 := 0
    theta_T1 := π
    Z_m := 0
    stub_type := StubKind.opn
    Y_n := 0.02
    Z_n := 50
    VSWR_f1 := 0
    VSWR_f2 := 0 }

/-- Concrete load of the exact-solution input: `Z_L1 = 10 + 10√3 i`. -/
def ZB1 : ℂ := 10 + (10 * Real.sqrt 3 : ℝ) * Complex.I

/-- Concrete load of the exact-solution input: `Z_L2 = 40 + 20√3 i`. -/
def ZB2 : ℂ := 40 + (20 * Real.sqrt 3 : ℝ) * Complex.I

/-- The candidate emitted at grid point `(θ_aux, k) = (0, 1)` of
`find_all_designs 1 3 ZB1 ZB2 50 (allow_aux_stub := True) (scan := False)`:
a fully exact design (`θ1 = π/3 + π`, region `c` remediated to `a` by a short
stub, perfect match at both frequencies). -/
def cB : DesignCandidate :=
  { f_design := 4
    region := Region.a
    aux_line := none
    Z1 := Real.sqrt 400
    theta1 := π / 3 + π
    aux_stub := some (StubKind.sht, Real.sqrt 3 / 140)
    Z_T1 := Real.sqrt 3500
    theta_T1 := π / 2
    Z_m := 10 * Real.sqrt 70
    stub_type := StubKind.opn
    Y_n := Real.sqrt 70 / 700
    Z_n := 10 * Real.sqrt 70
    VSWR_f1 := 1
    VSWR_f2 := 1 }

/-- Stage-1 input impedance at `f1` for the boundary input: `(320 + 40√6 i)/7`,
which lies exactly on the `g = 1` circle of the Smith chart. -/
def ZinA : ℂ := (320 + (40 * Real.sqrt 6 : ℝ) * Complex.I) / 7

/-- Stage-1 input impedance at `f1` for the exact-solution input at branch
`k = 1`: `40 - 20√3 i`, a region-c point remediated by a short stub. -/
def ZinB : ℂ := 40 - (20 * Real.sqrt 3 : ℝ) * Complex.I

/-! ## General lemmas about the pipeline stages -/

/-- `√3200 = 40√2`. -/
theorem sqrt3200_eq : Real.sqrt 3200 = 40 * Real.sqrt 2 := by
  rw [show (3200 : ℝ) = 40 ^ 2 * 2 by norm_num, Real.sqrt_mul (by positivity),
    Real.sqrt_sq (by norm_num)]

/-- `√6 = √2·√3`. -/
theorem sqrt6_eq : Real.sqrt 6 = Real.sqrt 2 * Real.sqrt 3 := by
  rw [show (6 : ℝ) = 2 * 3 by norm_num, Real.sqrt_mul (by norm_num)]

/-- `tan(π/6) = √3/3`. -/
theorem tan_pi_div_six_eq : Real.tan (π / 6) = Real.sqrt 3 / 3 := by
  rw [Real.tan_eq_sin_div_cos, Real.sin_pi_div_six, Real.cos_pi_div_six]
  have h3 : Real.sqrt 3 ≠ 0 := by positivity
  field_simp

/-- `tan(π/3) = √3`. -/
theorem tan_pi_div_three_eq : Real.tan (π / 3) = Real.sqrt 3 := by
  rw [Real.tan_eq_sin_div_cos, Real.sin_pi_div_three, Real.cos_pi_div_three]
  ring

/-- `1 ≤ √3`. -/
theorem one_le_sqrt3 : (1 : ℝ) ≤ Real.sqrt 3 := by
  have h := Real.sqrt_le_sqrt (show (1 : ℝ) ≤ 3 by norm_num)
  rwa [Real.sqrt_one] at h

/-- `1 ≤ √6`. -/
theorem one_le_sqrt6 : (1 : ℝ) ≤ Real.sqrt 6 := by
  have h := Real.sqrt_le_sqrt (show (1 : ℝ) ≤ 6 by norm_num)
  rwa [Real.sqrt_one] at h

/-- The verification line primitive on the non-degenerate branch. -/
theorem tline_eval (zl : ℂ) (zc th : ℝ) (h : ¬ |Real.cos th| < 1e-9) :
    tline_input_z zl zc th =
      zc * (zl + zc * (Complex.I * Real.tan th)) /
        (zc + zl * (Complex.I * Real.tan th)) := by
  unfold tline_input_z
  rw [if_neg h]

/-- A zero-impedance series line maps any load to `0` (non-degenerate angle). -/
theorem tline_zero_zc (zl : ℂ) (th : ℝ) (h : ¬ |Real.cos th| < 1e-9) :
    tline_input_z zl 0 th = 0 := by
  rw [tline_eval zl 0 th h]
  push_cast
  simp

/-- The verification stub primitive, open case, non-degenerate angle. -/
theorem stub_eval_opn (yc th : ℝ) (h1 : ¬ |Real.cos th| < 1e-9)
    (h2 : ¬ |Real.sin th| < 1e-9) :
    stub_admittance yc th true = Complex.I * yc * Real.tan th := by
  unfold stub_admittance
  rw [if_neg h1, if_neg h2, if_pos rfl]

/-- The verification stub primitive, short case, non-degenerate angle. -/
theorem stub_eval_sht (yc th : ℝ) (h1 : ¬ |Real.cos th| < 1e-9)
    (h2 : ¬ |Real.sin th| < 1e-9) :
    stub_admittance yc th false = -(Complex.I * yc) / Real.tan th := by
  unfold stub_admittance
  rw [if_neg h1, if_neg h2]
  rfl

/-- Every stub admittance returned by the verification primitive is purely
imaginary. -/
theorem stub_admittance_re (yc th : ℝ) (b : Bool) :
    (stub_admittance yc th b).re = 0 := by
  unfold stub_admittance
  split_ifs <;>
    simp [Complex.mul_re, Complex.mul_im, Complex.div_re, Complex.normSq_apply,
      Complex.I_re, Complex.I_im, Complex.ofReal_re, Complex.ofReal_im]

/-- A purely imaginary port impedance gives total reflection, and the VSWR
formula `(1+|ρ|)/(1−|ρ|)` degenerates to a division by zero, which the real
model evaluates to `0`. -/
theorem vswr_of_imaginary (z : ℂ) (Z0 : ℝ) (hz : z.re = 0) (h0 : Z0 ≠ 0) :
    vswr_of z Z0 = 0 := by
  simp only [vswr_of]
  have hne : z + (Z0 : ℂ) ≠ 0 := by
    intro h
    have hre := congrArg Complex.re h
    simp [Complex.add_re, hz] at hre
    exact h0 hre
  have h1 : Complex.normSq (z - (Z0 : ℂ)) = Complex.normSq (z + (Z0 : ℂ)) := by
    simp [Complex.normSq_apply, Complex.sub_re, Complex.add_re, Complex.sub_im,
      Complex.add_im, hz]
  have habs : Complex.abs ((z - (Z0 : ℂ)) / (z + (Z0 : ℂ))) = 1 := by
    rw [map_div₀, Complex.abs_apply, Complex.abs_apply, h1, div_self]
    exact Real.sqrt_ne_zero'.mpr (Complex.normSq_pos.mpr hne)
  rw [habs]
  norm_num

/-- `√400 = 20`. -/
theorem sqrt400_eq : Real.sqrt 400 = 20 := by
  rw [show (400 : ℝ) = 20 ^ 2 by norm_num, Real.sqrt_sq (by norm_num)]

/-- `√3·√3 = 3`. -/
theorem sqrt3_mul_self : Real.sqrt 3 * Real.sqrt 3 = 3 :=
  Real.mul_self_sqrt (by norm_num)

/-- `√70·√70 = 70`. -/
theorem sqrt70_mul_self : Real.sqrt 70 * Real.sqrt 70 = 70 :=
  Real.mul_self_sqrt (by norm_num)

/-- `(√3 : ℂ)² = 3`. -/
theorem csqrt3_sq : ((Real.sqrt 3 : ℝ) : ℂ) ^ 2 = 3 := by
  rw [← Complex.ofReal_pow, Real.sq_sqrt (by norm_num : (0 : ℝ) ≤ 3)]
  norm_num

/-- `I³ = -I`. -/
theorem cI_cube : Complex.I ^ 3 = -Complex.I := by
  rw [pow_succ, Complex.I_sq]
  ring

/-- `(√3 : ℂ)³ = 3·√3`. -/
theorem csqrt3_cube : ((Real.sqrt 3 : ℝ) : ℂ) ^ 3 = 3 * ((Real.sqrt 3 : ℝ) : ℂ) := by
  rw [pow_succ, csqrt3_sq]

/-- `(√70 : ℂ)² = 70`. -/
theorem csqrt70_sq : ((Real.sqrt 70 : ℝ) : ℂ) ^ 2 = 70 := by
  rw [← Complex.ofReal_pow, Real.sq_sqrt (by norm_num : (0 : ℝ) ≤ 70)]
  norm_num

/-- `(√70 : ℂ)³ = 70·√70`. -/
theorem csqrt70_cube : ((Real.sqrt 70 : ℝ) : ℂ) ^ 3 = 70 * ((Real.sqrt 70 : ℝ) : ℂ) := by
  rw [pow_succ, csqrt70_sq]

/-- `1 ≤ √70`. -/
theorem one_le_sqrt70 : (1 : ℝ) ≤ Real.sqrt 70 := by
  have h := Real.sqrt_le_sqrt (show (1 : ℝ) ≤ 70 by norm_num)
  rwa [Real.sqrt_one] at h

/-- `|cos(π/3)|` is not below the degeneracy threshold. -/
theorem cos_pi3_ok : ¬ |Real.cos (π / 3)| < 1e-9 := by
  rw [Real.cos_pi_div_three, show |(1 : ℝ) / 2| = 1 / 2 from abs_of_pos (by norm_num)]
  norm_num

/-- `|sin(π/3)|` is not below the degeneracy threshold. -/
theorem sin_pi3_ok : ¬ |Real.sin (π / 3)| < 1e-9 := by
  rw [Real.sin_pi_div_three, abs_of_pos (by positivity)]
  nlinarith [one_le_sqrt3]

/-- `|cos(π/4)|` is not below the degeneracy threshold. -/
theorem cos_pi4_ok : ¬ |Real.cos (π / 4)| < 1e-9 := by
  rw [Real.cos_pi_div_four, abs_of_pos (by positivity)]
  nlinarith [Real.sqrt_le_sqrt (show (1 : ℝ) ≤ 2 by norm_num), Real.sqrt_one]

/-- `|sin(π/4)|` is not below the degeneracy threshold. -/
theorem sin_pi4_ok : ¬ |Real.sin (π / 4)| < 1e-9 := by
  rw [Real.sin_pi_div_four, abs_of_pos (by positivity)]
  nlinarith [Real.sqrt_le_sqrt (show (1 : ℝ) ≤ 2 by norm_num), Real.sqrt_one]

/-- `|cos π| = 1` is not below the degeneracy threshold. -/
theorem cos_pi_ok : ¬ |Real.cos π| < 1e-9 := by
  rw [Real.cos_pi]
  norm_num

/-- `|cos(π - π/4)|` is not below the degeneracy threshold. -/
theorem cos_3pi4_ok : ¬ |Real.cos (π - π / 4)| < 1e-9 := by
  rw [Real.cos_pi_sub, abs_neg]
  exact cos_pi4_ok

/-- `|sin(π - π/4)|` is not below the degeneracy threshold. -/
theorem sin_3pi4_ok : ¬ |Real.sin (π - π / 4)| < 1e-9 := by
  rw [Real.sin_pi_sub]
  exact sin_pi4_ok

/-- `arctan √3 = π/3`. -/
theorem arctan_sqrt3 : Real.arctan (Real.sqrt 3) = π / 3 := by
  rw [← tan_pi_div_three_eq]
  exact Real.arctan_tan (by linarith [Real.pi_pos]) (by linarith [Real.pi_pos])

/-- `tan(π - π/4) = -1`. -/
theorem tan_3pi4_eq : Real.tan (π - π / 4) = -1 := by
  rw [Real.tan_eq_sin_div_cos, Real.sin_pi_sub, Real.cos_pi_sub,
    Real.sin_pi_div_four, Real.cos_pi_div_four, div_neg]
  rw [div_self (by positivity : Real.sqrt 2 / 2 ≠ 0)]

/-- VSWR of a perfectly matched port is `1`. -/
theorem vswr_of_matched (Z0 : ℝ) : vswr_of ((Z0 : ℝ) : ℂ) Z0 = 1 := by
  simp only [vswr_of]
  rw [sub_self, zero_div, map_zero]
  norm_num

/-! ## Evaluation of the boundary input A:
`f1 = 1, f2 = 2, Z_L1 = 40, Z_L2 = 80, Z0 = 50, allow_aux_stub = false`. -/

/-- The conjugate radicand of input A is `3200`. -/
theorem radA : conj_radicand ZA1 ZA2 = 3200 := by
  unfold conj_radicand ZA1 ZA2
  simp
  norm_num

/-- The conjugate base angle of input A comes from the degenerate-denominator
branch: `π/2`. -/
theorem baseA : conj_theta_base ZA1 ZA2 = π / 2 := by
  simp only [conj_theta_base]
  rw [show (ZA2.re * ZA1.im - ZA1.re * ZA2.im : ℝ) = 0 by simp [ZA1, ZA2]]
  rw [if_pos (by norm_num : |(0 : ℝ)| < 1e-9)]
  rw [if_neg (by linarith [Real.pi_pos] : ¬ π / 2 < 0)]

theorem diffA : ZA2.re - ZA1.re = 40 := by
  simp [ZA1, ZA2]
  norm_num

/-- Conjugate stage at grid point `(0, 0)` of input A: `Z1 = √3200`,
`θ1 = π/2` (degenerate-denominator branch), `Z_in1 = (320 + 40√6 i)/7`. -/
theorem conjA0 : calculate_conjugate_transform ZA1 ZA2 (pfrac1 1 2) 0 =
    some ⟨Real.sqrt 3200, π / 2, ZinA⟩ := by
  have hrad := radA
  have hbase := baseA
  simp only [calculate_conjugate_transform]
  rw [if_neg (by rw [diffA]; norm_num : ¬ |ZA2.re - ZA1.re| < 1e-6)]
  rw [if_neg (by rw [hrad]; norm_num : ¬ conj_radicand ZA1 ZA2 < 0)]
  rw [hrad, hbase]
  rw [show π / 2 + ((0 : ℕ) : ℝ) * π = π / 2 by push_cast; ring]
  rw [show π / 2 * pfrac1 1 2 = π / 6 by
    unfold pfrac1
    rw [show (1 : ℝ) / (1 + 2) = 1 / 3 by norm_num]
    ring]
  rw [tan_pi_div_six_eq, sqrt3200_eq]
  simp only [Option.some.injEq, ConjResult.mk.injEq]
  refine ⟨trivial, trivial, ?_⟩
  rw [show ZinA = (320 + ((40 * (Real.sqrt 2 * Real.sqrt 3) : ℝ) : ℂ) * Complex.I) / 7 from
    by rw [ZinA, sqrt6_eq]]
  have h2 : ((Real.sqrt 2 : ℝ) : ℂ) ^ 2 = 2 := by
    rw [← Complex.ofReal_pow, Real.sq_sqrt (by norm_num : (0 : ℝ) ≤ 2)]
    norm_num
  have h3 : ((Real.sqrt 3 : ℝ) : ℂ) ^ 2 = 3 := by
    rw [← Complex.ofReal_pow, Real.sq_sqrt (by norm_num : (0 : ℝ) ≤ 3)]
    norm_num
  have hs2pos : (0 : ℝ) < Real.sqrt 2 := Real.sqrt_pos.mpr (by norm_num)
  have hD : (((40 * Real.sqrt 2 : ℝ) : ℂ) +
      Complex.I * ZA1 * ((Real.sqrt 3 / 3 : ℝ) : ℂ)) ≠ 0 := by
    intro h
    have hre := congrArg Complex.re h
    simp [ZA1, Complex.add_re, Complex.mul_re, Complex.mul_im] at hre
  rw [ZA1] at hD ⊢
  rw [div_eq_div_iff hD (by norm_num)]
  push_cast
  ring_nf
  simp only [Complex.I_sq, h2, h3]
  ring_nf

/-- Region classification of input A: exactly on the `g = 1` circle with
`r = 32/35 < 1`, hence region `c`. -/
theorem classifyA : classify_region ZinA 50 = Region.c := by
  have hs6 : Real.sqrt 6 * Real.sqrt 6 = 6 := Real.mul_self_sqrt (by norm_num)
  unfold classify_region ZinA
  rw [if_neg ?hr, if_neg ?hg]
  case hr =>
    simp [Complex.div_re, Complex.div_im, Complex.normSq_apply]
    norm_num
  case hg =>
    simp [Complex.div_re, Complex.div_im, Complex.normSq_apply, Complex.inv_re,
      one_div]
    rw [show (40 : ℝ) * Real.sqrt 6 * (40 * Real.sqrt 6) = 9600 by
      linear_combination (1600 : ℝ) * hs6]
    norm_num

/-- Region stage of input A with remediation disabled: the point keeps region
`c`, no aux stub, unchanged impedance. -/
theorem checkA : check_region_and_adjust ZinA 50 (pfrac1 1 2) false =
    (Region.c, none, ZinA) := by
  unfold check_region_and_adjust
  rw [classifyA]
  simp

/-- Pi-line stage of input A: the radicand is exactly `0` (boundary `g = 1`),
so the stage succeeds with `Z_T1 = 0` and `theta_T1 = π`. -/
theorem matchA : calculate_matching_network ZinA 50 = some ⟨0, π⟩ := by
  have hs6 : Real.sqrt 6 ^ 2 = 6 := Real.sq_sqrt (by norm_num)
  have hre : ZinA.re = 320 / 7 := by
    unfold ZinA
    simp [Complex.div_re, Complex.normSq_apply]
  have him : ZinA.im = 40 * Real.sqrt 6 / 7 := by
    unfold ZinA
    simp [Complex.div_im, Complex.normSq_apply]
  have hterm : ZinA.im ^ 2 * 50 / (ZinA.re - 50) + ZinA.re * 50 = 0 := by
    rw [hre, him, div_pow, mul_pow, hs6]
    norm_num
  have hs6pos : (0 : ℝ) < Real.sqrt 6 := Real.sqrt_pos.mpr (by norm_num)
  have hden : ¬ |ZinA.im * 50| < 1e-9 := by
    rw [him, abs_of_pos (by positivity)]
    nlinarith [one_le_sqrt6]
  simp only [calculate_matching_network]
  rw [hterm]
  rw [if_neg (by norm_num : ¬ (0 : ℝ) < 0), Real.sqrt_zero]
  rw [if_neg hden, zero_mul, zero_div, Real.arctan_zero, if_pos le_rfl]
  norm_num

/-- Pi synthesis of input A: `Z_m = 0` makes `B_n1` a division by zero
(`0` in the real model), both tried admittances are `0`, and the fallback
assigns the dummy `Y_n = 0.02`, `Z_n = 50`. -/
theorem synthA : synthesize_pi_network 0 π (pfrac1 1 2) =
    ⟨0, StubKind.opn, 0.02, 50⟩ := by
  have hZm : pi_Z_m 0 π (pfrac1 1 2) = 0 := by
    unfold pi_Z_m
    simp
  have hB : pi_B_n1 0 π (pfrac1 1 2) = 0 := by
    unfold pi_B_n1
    rw [hZm]
    simp
  have hYo : piY_open 0 π (pfrac1 1 2) = 0 := by
    unfold piY_open
    rw [hB]
    simp
  have hYs : piY_short 0 π (pfrac1 1 2) = 0 := by
    unfold piY_short
    rw [hB]
    ring
  unfold synthesize_pi_network
  rw [hYo, hYs, hZm]
  rw [if_neg (lt_irrefl 0), if_neg (lt_irrefl 0)]
  rw [if_neg (by norm_num : ¬ (0 : ℝ) ≠ 0)]
  norm_num

/-- Forward verification of input A at `f1`: the zero-impedance series line
collapses the port impedance to a purely imaginary value, so `|ρ| = 1` and the
VSWR expression degenerates (`0` in the real model; `inf` in floats). -/
theorem verifyA_f1 :
    verify_vswr 1 2 ZA1 none (Real.sqrt 3200) (π / 2) none 0 StubKind.opn 0.02 50 1 = 0 := by
  have hang : π * ((1 : ℝ) / (1 + 2)) = π / 3 := by
    rw [show (1 : ℝ) / (1 + 2) = 1 / 3 by norm_num]
    ring
  have hcos3 : ¬ |Real.cos (π / 3)| < 1e-9 := by
    rw [Real.cos_pi_div_three, show |(1 : ℝ) / 2| = 1 / 2 from abs_of_pos (by norm_num)]
    norm_num
  simp only [verify_vswr]
  rw [hang, tline_zero_zc _ _ hcos3]
  rw [show (1 : ℂ) / 0 = 0 by simp, zero_add]
  apply vswr_of_imaginary _ _ ?_ (by norm_num)
  rw [one_div, Complex.inv_re, stub_admittance_re, zero_div]

/-- Forward verification of input A at `f2`: same collapse as at `f1`. -/
theorem verifyA_f2 :
    verify_vswr 1 2 ZA2 none (Real.sqrt 3200) (π / 2) none 0 StubKind.opn 0.02 50 2 = 0 := by
  have hang : π * ((2 : ℝ) / (1 + 2)) = π - π / 3 := by
    rw [show (2 : ℝ) / (1 + 2) = 2 / 3 by norm_num]
    ring
  have hcos : ¬ |Real.cos (π - π / 3)| < 1e-9 := by
    rw [Real.cos_pi_sub, Real.cos_pi_div_three, abs_neg,
      show |(1 : ℝ) / 2| = 1 / 2 from abs_of_pos (by norm_num)]
    norm_num
  simp only [verify_vswr]
  rw [hang, tline_zero_zc _ _ hcos]
  rw [show (1 : ℂ) / 0 = 0 by simp, zero_add]
  apply vswr_of_imaginary _ _ ?_ (by norm_num)
  rw [one_div, Complex.inv_re, stub_admittance_re, zero_div]

/-- The full pipeline at grid point `(0, 0)` of input A emits the candidate
`cA`: region tag `c` survives into the finished candidate and both VSWR values
are degenerate. -/
theorem processA : processPoint 1 2 ZA1 ZA2 50 false 0 0 = some cA := by
  have haux1 : aux_applied_load ZA1 0 (pfrac1 1 2) = ZA1 := by
    unfold aux_applied_load
    simp
  have haux2 : aux_applied_load ZA2 0 (pfrac2 1 2) = ZA2 := by
    unfold aux_applied_load
    simp
  simp only [processPoint]
  rw [haux1, haux2, conjA0]
  dsimp only
  rw [checkA]
  dsimp only
  rw [matchA]
  dsimp only
  rw [synthA]
  dsimp only
  rw [if_neg (lt_irrefl 0)]
  rw [verifyA_f1, verifyA_f2]
  unfold cA
  norm_num

/-- Claim C1 (code bug): at the failing input A the first emitted candidate
has recomputed `VSWR_f1 = 0` in the real model (float: `inf`), not `1 ± 1e-3`. -/
theorem claim_C1_failing_eval :
    ((find_all_designs 1 2 ZA1 ZA2 50 false false).map DesignCandidate.VSWR_f1).head? =
      some 0 := by
  rw [show find_all_designs 1 2 ZA1 ZA2 50 false false =
      List.filterMap (fun q => processPoint 1 2 ZA1 ZA2 50 false q.1 q.2)
        [(0, 0), (0, 1)] from by
    unfold find_all_designs
    rw [show searchGrid false = [(0, 0), (0, 1)] from by decide]]
  simp only [List.filterMap_cons]
  rw [processA]
  rfl

/-- Claim C2 counterexample: with `allow_aux_stub = false`, input A emits a
candidate whose region tag is `c`. -/
theorem claim_C2_counterexample :
    ((find_all_designs 1 2 ZA1 ZA2 50 false false).map DesignCandidate.region).head? =
      some Region.c := by
  rw [show find_all_designs 1 2 ZA1 ZA2 50 false false =
      List.filterMap (fun q => processPoint 1 2 ZA1 ZA2 50 false q.1 q.2)
        [(0, 0), (0, 1)] from by
    unfold find_all_designs
    rw [show searchGrid false = [(0, 0), (0, 1)] from by decide]]
  simp only [List.filterMap_cons]
  rw [processA]
  rfl

/-- Claim C8 counterexample: the emitted candidate `cA` has `VSWR_f1 = 0`,
refuting "VSWR values of emitted candidates are always ≥ 1". -/
theorem claim_C8_counterexample :
    ¬ ∀ c ∈ find_all_designs 1 2 ZA1 ZA2 50 false false, 1 ≤ c.VSWR_f1 := by
  intro h
  have hmem : cA ∈ find_all_designs 1 2 ZA1 ZA2 50 false false := by
    unfold find_all_designs
    exact List.mem_filterMap.mpr ⟨(0, 0), by decide, processA⟩
  have h0 := h cA hmem
  rw [show cA.VSWR_f1 = 0 from rfl] at h0
  norm_num at h0

/-! ## Evaluation of the exact-solution input B:
`f1 = 1, f2 = 3, Z_L1 = 10 + 10√3 i, Z_L2 = 40 + 20√3 i, Z0 = 50,
allow_aux_stub = true`, grid point `(0, 1)`. -/

/-- Conjugate stage of input A at branch `k = 1`: same base angle `π/2`, total
angle `π/2 + π` (the scaled angle hits the quarter-wave point; the real model
evaluates `tan(π/2) = 0` there, giving `Z_in1 = Z_L1`). -/
theorem conjA1 : calculate_conjugate_transform ZA1 ZA2 (pfrac1 1 2) 1 =
    some ⟨Real.sqrt 3200, π / 2 + π, 40⟩ := by
  have hs : (0 : ℝ) < Real.sqrt 3200 := Real.sqrt_pos.mpr (by norm_num)
  simp only [calculate_conjugate_transform]
  rw [if_neg (by rw [diffA]; norm_num : ¬ |ZA2.re - ZA1.re| < 1e-6)]
  rw [if_neg (by rw [radA]; norm_num : ¬ conj_radicand ZA1 ZA2 < 0)]
  rw [radA, baseA]
  rw [show π / 2 + ((1 : ℕ) : ℝ) * π = π / 2 + π by push_cast; ring]
  rw [show (π / 2 + π) * pfrac1 1 2 = π / 2 by
    unfold pfrac1
    rw [show (1 : ℝ) / (1 + 2) = 1 / 3 by norm_num]
    ring]
  rw [Real.tan_pi_div_two]
  simp only [Option.some.injEq, ConjResult.mk.injEq]
  refine ⟨trivial, trivial, ?_⟩
  rw [ZA1]
  push_cast
  rw [mul_zero, mul_zero, add_zero, add_zero]
  exact mul_div_cancel_left₀ 40 (Complex.ofReal_ne_zero.mpr (ne_of_gt hs))

/-- The conjugate radicand of input B is `400`. -/
theorem radB : conj_radicand ZB1 ZB2 = 400 := by
  unfold conj_radicand ZB1 ZB2
  simp
  ring_nf

/-- The conjugate base angle of input B: `arctan √3 = π/3`. -/
theorem baseB : conj_theta_base ZB1 ZB2 = π / 3 := by
  simp only [conj_theta_base]
  rw [show (ZB2.re * ZB1.im - ZB1.re * ZB2.im : ℝ) = 200 * Real.sqrt 3 by
    simp [ZB1, ZB2]
    ring]
  rw [if_neg (by
    rw [abs_of_pos (by positivity)]
    nlinarith [one_le_sqrt3] : ¬ |200 * Real.sqrt 3| < 1e-9)]
  rw [radB, sqrt400_eq]
  rw [show (ZB2.re - ZB1.re : ℝ) = 30 by simp [ZB1, ZB2]; norm_num]
  rw [show (20 : ℝ) * 30 / (200 * Real.sqrt 3) = Real.sqrt 3 by
    rw [div_eq_iff (by positivity : (200 : ℝ) * Real.sqrt 3 ≠ 0)]
    have h3 := sqrt3_mul_self
    ring_nf
    ring_nf at h3
    linarith [h3]]
  rw [arctan_sqrt3]
  rw [if_neg (by linarith [Real.pi_pos] : ¬ π / 3 < 0)]

/-- Conjugate stage of input B at branch `k = 1`: `Z1 = 20`,
`θ1 = π/3 + π`, `Z_in1 = 40 - 20√3 i`. -/
theorem conjB : calculate_conjugate_transform ZB1 ZB2 (pfrac1 1 3) 1 =
    some ⟨Real.sqrt 400, π / 3 + π, ZinB⟩ := by
  simp only [calculate_conjugate_transform]
  rw [if_neg (by
    rw [show (ZB2.re - ZB1.re : ℝ) = 30 by simp [ZB1, ZB2]; norm_num]
    norm_num : ¬ |ZB2.re - ZB1.re| < 1e-6)]
  rw [if_neg (by rw [radB]; norm_num : ¬ conj_radicand ZB1 ZB2 < 0)]
  rw [radB, baseB]
  rw [show π / 3 + ((1 : ℕ) : ℝ) * π = π / 3 + π by push_cast; ring]
  rw [show (π / 3 + π) * pfrac1 1 3 = π / 3 by
    unfold pfrac1
    rw [show (1 : ℝ) / (1 + 3) = 1 / 4 by norm_num]
    ring]
  rw [tan_pi_div_three_eq, sqrt400_eq]
  simp only [Option.some.injEq, ConjResult.mk.injEq]
  refine ⟨trivial, trivial, ?_⟩
  have hD : (((20 : ℝ) : ℂ) + Complex.I * ZB1 * ((Real.sqrt 3 : ℝ) : ℂ)) ≠ 0 := by
    intro h
    have hre := congrArg Complex.re h
    simp [ZB1, Complex.add_re, Complex.mul_re, Complex.mul_im, Complex.I_re,
      Complex.I_im, Complex.ofReal_re, Complex.ofReal_im] at hre
    nlinarith [sqrt3_mul_self]
  rw [div_eq_iff hD]
  unfold ZinB ZB1
  push_cast
  ring_nf
  simp only [Complex.I_sq, csqrt3_sq, cI_cube, csqrt3_cube]
  ring_nf

/-- `p1·π = π/4` for input B. -/
theorem pfB : pfrac1 1 3 * π = π / 4 := by
  unfold pfrac1
  rw [show (1 : ℝ) / (1 + 3) = 1 / 4 by norm_num]
  ring

/-- `p1·π = π/3` for input A. -/
theorem pfA : pfrac1 1 2 * π = π / 3 := by
  unfold pfrac1
  rw [show (1 : ℝ) / (1 + 2) = 1 / 3 by norm_num]
  ring

/-- Region classification of input B at `k = 1`: `r = 0.8`, `g = 5/7`, so
region `c`. -/
theorem classifyB : classify_region ZinB 50 = Region.c := by
  have hs3 : Real.sqrt 3 * Real.sqrt 3 = 3 := sqrt3_mul_self
  unfold classify_region ZinB
  rw [if_neg ?hr, if_neg ?hg]
  case hr =>
    simp [Complex.div_re, Complex.div_im, Complex.normSq_apply]
    norm_num
  case hg =>
    simp [Complex.div_re, Complex.div_im, Complex.normSq_apply, Complex.inv_re,
      one_div]
    rw [show (20 : ℝ) * Real.sqrt 3 * (20 * Real.sqrt 3) = 1200 by
      linear_combination (400 : ℝ) * hs3]
    norm_num

/-- `1/Z_in1` of input B: `1/70 + (√3/140) i`. -/
theorem invZinB : (1 : ℂ) / ZinB =
    ((1 / 70 : ℝ) : ℂ) + ((Real.sqrt 3 / 140 : ℝ) : ℂ) * Complex.I := by
  rw [one_div]
  apply inv_eq_of_mul_eq_one_right
  unfold ZinB
  push_cast
  ring_nf
  simp only [Complex.I_sq, csqrt3_sq, cI_cube, csqrt3_cube]
  ring_nf

/-- Region-c remediation of input B: the open stub is rejected (negative
admittance), the short stub `Y2 = √3/140` is accepted and the matched
impedance becomes exactly `70`. -/
theorem stubB : add_auxiliary_stub ZinB (pfrac1 1 3) =
    ⟨StubKind.sht, Real.sqrt 3 / 140, 70⟩ := by
  have htB : aux_targetB ZinB = -(Real.sqrt 3 / 140) := by
    unfold aux_targetB
    rw [show (1 : ℂ) / ZinB = ((1 / 70 : ℝ) : ℂ) + ((Real.sqrt 3 / 140 : ℝ) : ℂ) *
      Complex.I from invZinB]
    simp
  have hYo : auxY2open ZinB (pfrac1 1 3) = -(Real.sqrt 3 / 140) := by
    unfold auxY2open
    rw [pfB, Real.tan_pi_div_four]
    rw [if_pos (by norm_num : (1e-9 : ℝ) < |1|)]
    rw [htB, div_one]
  have hYs : auxY2short ZinB (pfrac1 1 3) = Real.sqrt 3 / 140 := by
    unfold auxY2short
    rw [pfB, Real.tan_pi_div_four, htB]
    ring
  unfold add_auxiliary_stub
  rw [hYo, hYs, pfB, Real.tan_pi_div_four]
  rw [if_neg (not_lt.mpr (neg_nonpos.mpr (by positivity)))]
  rw [if_pos (by positivity : (0 : ℝ) < Real.sqrt 3 / 140)]
  rw [invZinB]
  rw [show ((1 / 70 : ℝ) : ℂ) + ((Real.sqrt 3 / 140 : ℝ) : ℂ) * Complex.I +
      -(Complex.I * ((Real.sqrt 3 / 140 : ℝ) : ℂ)) / ((1 : ℝ) : ℂ) =
      ((1 / 70 : ℝ) : ℂ) by push_cast; ring]
  rw [show (1 : ℂ) / ((1 / 70 : ℝ) : ℂ) = 70 by push_cast; norm_num]

/-- Region stage of input B with remediation enabled: region `c` is retagged
`a`, the short aux stub is recorded, and the matched impedance is `70`. -/
theorem checkB : check_region_and_adjust ZinB 50 (pfrac1 1 3) true =
    (Region.a, some (StubKind.sht, Real.sqrt 3 / 140), 70) := by
  unfold check_region_and_adjust
  rw [classifyB]
  simp [stubB]

/-- Pi-line stage of input B: radicand `3500`, degenerate denominator, so
`Z_T1 = √3500` and `theta_T1 = π/2`. -/
theorem matchB : calculate_matching_network ((70 : ℂ)) 50 =
    some ⟨Real.sqrt 3500, π / 2⟩ := by
  have hterm : ((70 : ℂ)).im ^ 2 * 50 / (((70 : ℂ)).re - 50) + ((70 : ℂ)).re * 50 =
      3500 := by
    simp
    norm_num
  simp only [calculate_matching_network]
  rw [hterm]
  rw [if_neg (by norm_num : ¬ (3500 : ℝ) < 0)]
  rw [show (((70 : ℂ)).im * 50 : ℝ) = 0 by simp]
  rw [if_pos (by norm_num : |(0 : ℝ)| < 1e-9)]
  rw [if_neg (by linarith [Real.pi_pos] : ¬ π / 2 ≤ 0)]

/-- Pi synthesis of input B: `Z_m = 10√70`, open stub with `Y_n = √70/700`,
`Z_n = 10√70`. -/
theorem synthB : synthesize_pi_network (Real.sqrt 3500) (π / 2) (pfrac1 1 3) =
    ⟨10 * Real.sqrt 70, StubKind.opn, Real.sqrt 70 / 700, 10 * Real.sqrt 70⟩ := by
  have h2 : Real.sqrt 2 ^ 2 = 2 := Real.sq_sqrt (by norm_num)
  have hZm : pi_Z_m (Real.sqrt 3500) (π / 2) (pfrac1 1 3) = 10 * Real.sqrt 70 := by
    unfold pi_Z_m
    rw [pfB, Real.sin_pi_div_two, Real.sin_pi_div_four]
    rw [div_eq_iff (by positivity : Real.sqrt 2 / 2 ≠ 0)]
    rw [show Real.sqrt 3500 = 10 * Real.sqrt 35 from by
      rw [show (3500 : ℝ) = 10 ^ 2 * 35 by norm_num, Real.sqrt_mul (by positivity),
        Real.sqrt_sq (by norm_num)]]
    rw [show Real.sqrt 70 = Real.sqrt 35 * Real.sqrt 2 from by
      rw [show (70 : ℝ) = 35 * 2 by norm_num, Real.sqrt_mul (by norm_num)]]
    have h2m := Real.mul_self_sqrt (show (0 : ℝ) ≤ 2 by norm_num)
    ring_nf
    ring_nf at h2m
    linear_combination (-5 * Real.sqrt 35) * h2m
  have hB : pi_B_n1 (Real.sqrt 3500) (π / 2) (pfrac1 1 3) = Real.sqrt 70 / 700 := by
    unfold pi_B_n1
    rw [hZm, pfB, Real.cos_pi_div_four, Real.cos_pi_div_two, Real.sin_pi_div_four,
      sub_zero]
    rw [div_eq_div_iff (by positivity : (10 : ℝ) * Real.sqrt 70 * (Real.sqrt 2 / 2) ≠ 0)
      (by norm_num : (700 : ℝ) ≠ 0)]
    linear_combination (-5 * Real.sqrt 2) * sqrt70_mul_self
  have hYo : piY_open (Real.sqrt 3500) (π / 2) (pfrac1 1 3) = Real.sqrt 70 / 700 := by
    unfold piY_open
    rw [pfB, Real.tan_pi_div_four]
    rw [if_pos (by norm_num : (1e-9 : ℝ) < |1|)]
    rw [hB, div_one]
  unfold synthesize_pi_network
  rw [hYo, hZm]
  rw [if_pos (by positivity : (0 : ℝ) < Real.sqrt 70 / 700)]
  rw [show (1 : ℝ) / (Real.sqrt 70 / 700) = 10 * Real.sqrt 70 from by
    rw [one_div_div]
    rw [div_eq_iff (by positivity : Real.sqrt 70 ≠ 0)]
    linear_combination (-10 : ℝ) * sqrt70_mul_self]

/-- The stage-1 line of input B as replayed by the verification primitive
maps `Z_L1` back to `Z_in1 = 40 - 20√3 i`. -/
theorem lineB_core :
    ((20 : ℝ) : ℂ) * (ZB1 + ((20 : ℝ) : ℂ) * (Complex.I * ((Real.sqrt 3 : ℝ) : ℂ))) /
      (((20 : ℝ) : ℂ) + ZB1 * (Complex.I * ((Real.sqrt 3 : ℝ) : ℂ))) = ZinB := by
  have hD : (((20 : ℝ) : ℂ) + ZB1 * (Complex.I * ((Real.sqrt 3 : ℝ) : ℂ))) ≠ 0 := by
    intro h
    have hre := congrArg Complex.re h
    simp [ZB1, Complex.add_re, Complex.mul_re, Complex.mul_im, Complex.I_re,
      Complex.I_im, Complex.ofReal_re, Complex.ofReal_im] at hre
    nlinarith [sqrt3_mul_self]
  rw [div_eq_iff hD]
  unfold ZinB ZB1
  push_cast
  ring_nf
  simp only [Complex.I_sq, csqrt3_sq, cI_cube, csqrt3_cube]
  ring_nf

/-- Forward verification of input B at `f1`: the replayed network presents
exactly `50 Ω`, so `VSWR_f1 = 1`. -/
theorem verifyB_f1 :
    verify_vswr 1 3 ZB1 none (Real.sqrt 400) (π / 3 + π)
      (some (StubKind.sht, Real.sqrt 3 / 140)) (10 * Real.sqrt 70) StubKind.opn
      (Real.sqrt 70 / 700) 50 1 = 1 := by
  simp only [verify_vswr]
  rw [show (π / 3 + π) * ((1 : ℝ) / (1 + 3)) = π / 3 by
    rw [show (1 : ℝ) / (1 + 3) = 1 / 4 by norm_num]
    ring]
  rw [show π * ((1 : ℝ) / (1 + 3)) = π / 4 by
    rw [show (1 : ℝ) / (1 + 3) = 1 / 4 by norm_num]
    ring]
  rw [tline_eval ZB1 (Real.sqrt 400) (π / 3) cos_pi3_ok]
  rw [tan_pi_div_three_eq, sqrt400_eq, lineB_core]
  rw [show (StubKind.sht == StubKind.opn) = false from rfl]
  rw [show (StubKind.opn == StubKind.opn) = true from rfl]
  rw [stub_eval_sht (Real.sqrt 3 / 140) (π / 4) cos_pi4_ok sin_pi4_ok]
  rw [stub_eval_opn (Real.sqrt 70 / 700) (π / 4) cos_pi4_ok sin_pi4_ok]
  rw [Real.tan_pi_div_four, Complex.ofReal_one, mul_one, div_one]
  rw [invZinB]
  rw [show ((1 / 70 : ℝ) : ℂ) + ((Real.sqrt 3 / 140 : ℝ) : ℂ) * Complex.I +
      -(Complex.I * ((Real.sqrt 3 / 140 : ℝ) : ℂ)) = ((1 / 70 : ℝ) : ℂ) by
    push_cast
    ring]
  rw [show (1 : ℂ) / ((1 / 70 : ℝ) : ℂ) = 70 by push_cast; norm_num]
  rw [show (1 : ℂ) / (1 / (70 : ℂ) + Complex.I * ((Real.sqrt 70 / 700 : ℝ) : ℂ)) =
      ((700 / 17 : ℝ) : ℂ) - ((70 * Real.sqrt 70 / 17 : ℝ) : ℂ) * Complex.I from by
    rw [one_div]
    apply inv_eq_of_mul_eq_one_right
    push_cast
    ring_nf
    simp only [Complex.I_sq, csqrt70_sq, cI_cube, csqrt70_cube]
    ring_nf]
  rw [tline_eval _ (10 * Real.sqrt 70) (π / 4) cos_pi4_ok]
  rw [Real.tan_pi_div_four, Complex.ofReal_one, mul_one]
  rw [show ((10 * Real.sqrt 70 : ℝ) : ℂ) *
      ((((700 / 17 : ℝ) : ℂ) - ((70 * Real.sqrt 70 / 17 : ℝ) : ℂ) * Complex.I) +
        ((10 * Real.sqrt 70 : ℝ) : ℂ) * Complex.I) /
      (((10 * Real.sqrt 70 : ℝ) : ℂ) +
        (((700 / 17 : ℝ) : ℂ) - ((70 * Real.sqrt 70 / 17 : ℝ) : ℂ) * Complex.I) *
          Complex.I) =
      ((700 / 19 : ℝ) : ℂ) + ((50 * Real.sqrt 70 / 19 : ℝ) : ℂ) * Complex.I from by
    have hD4 : (((10 * Real.sqrt 70 : ℝ) : ℂ) +
        (((700 / 17 : ℝ) : ℂ) - ((70 * Real.sqrt 70 / 17 : ℝ) : ℂ) * Complex.I) *
          Complex.I) ≠ 0 := by
      intro h
      have him := congrArg Complex.im h
      simp [Complex.add_im, Complex.sub_im, Complex.mul_im, Complex.mul_re,
        Complex.I_re, Complex.I_im, Complex.ofReal_re, Complex.ofReal_im] at him
    rw [div_eq_iff hD4]
    push_cast
    ring_nf
    simp only [Complex.I_sq, csqrt70_sq, cI_cube, csqrt70_cube]
    ring_nf]
  have hz4inv : (1 : ℂ) / (((700 / 19 : ℝ) : ℂ) + ((50 * Real.sqrt 70 / 19 : ℝ) : ℂ) *
      Complex.I) = ((1 / 50 : ℝ) : ℂ) - ((Real.sqrt 70 / 700 : ℝ) : ℂ) * Complex.I := by
    rw [one_div]
    apply inv_eq_of_mul_eq_one_right
    push_cast
    ring_nf
    simp only [Complex.I_sq, csqrt70_sq, cI_cube, csqrt70_cube]
    ring_nf
  rw [show (1 : ℂ) / (((700 / 19 : ℝ) : ℂ) + ((50 * Real.sqrt 70 / 19 : ℝ) : ℂ) *
      Complex.I) + Complex.I * ((Real.sqrt 70 / 700 : ℝ) : ℂ) =
      ((1 / 50 : ℝ) : ℂ) from by
    rw [hz4inv]
    push_cast
    ring]
  rw [show (1 : ℂ) / ((1 / 50 : ℝ) : ℂ) = ((50 : ℝ) : ℂ) by push_cast; norm_num]
  exact vswr_of_matched 50

/-- Forward verification of input B at `f2`: the stage-1 line is a half-wave
there, every later element mirrors the `f1` case with conjugated reactances,
and the port again presents exactly `50 Ω`: `VSWR_f2 = 1`. -/
theorem verifyB_f2 :
    verify_vswr 1 3 ZB2 none (Real.sqrt 400) (π / 3 + π)
      (some (StubKind.sht, Real.sqrt 3 / 140)) (10 * Real.sqrt 70) StubKind.opn
      (Real.sqrt 70 / 700) 50 3 = 1 := by
  simp only [verify_vswr]
  rw [show (π / 3 + π) * ((3 : ℝ) / (1 + 3)) = π by
    rw [show (3 : ℝ) / (1 + 3) = 3 / 4 by norm_num]
    ring]
  rw [show π * ((3 : ℝ) / (1 + 3)) = π - π / 4 by
    rw [show (3 : ℝ) / (1 + 3) = 3 / 4 by norm_num]
    ring]
  rw [tline_eval ZB2 (Real.sqrt 400) π cos_pi_ok]
  rw [Real.tan_pi, sqrt400_eq]
  simp only [Complex.ofReal_zero, mul_zero, add_zero]
  rw [show ((20 : ℝ) : ℂ) * ZB2 / ((20 : ℝ) : ℂ) = ZB2 from
    mul_div_cancel_left₀ ZB2 (Complex.ofReal_ne_zero.mpr (by norm_num))]
  rw [show (StubKind.sht == StubKind.opn) = false from rfl]
  rw [show (StubKind.opn == StubKind.opn) = true from rfl]
  rw [stub_eval_sht (Real.sqrt 3 / 140) (π - π / 4) cos_3pi4_ok sin_3pi4_ok]
  rw [stub_eval_opn (Real.sqrt 70 / 700) (π - π / 4) cos_3pi4_ok sin_3pi4_ok]
  rw [tan_3pi4_eq]
  rw [show (1 : ℂ) / ZB2 = ((1 / 70 : ℝ) : ℂ) - ((Real.sqrt 3 / 140 : ℝ) : ℂ) *
      Complex.I from by
    rw [one_div]
    apply inv_eq_of_mul_eq_one_right
    unfold ZB2
    push_cast
    ring_nf
    simp only [Complex.I_sq, csqrt3_sq, cI_cube, csqrt3_cube]
    ring_nf]
  rw [show ((1 / 70 : ℝ) : ℂ) - ((Real.sqrt 3 / 140 : ℝ) : ℂ) * Complex.I +
      -(Complex.I * ((Real.sqrt 3 / 140 : ℝ) : ℂ)) / ((-1 : ℝ) : ℂ) =
      ((1 / 70 : ℝ) : ℂ) by
    push_cast
    ring]
  rw [show (1 : ℂ) / ((1 / 70 : ℝ) : ℂ) = 70 by push_cast; norm_num]
  rw [show (1 : ℂ) / (1 / (70 : ℂ) + Complex.I * ((Real.sqrt 70 / 700 : ℝ) : ℂ) *
      ((-1 : ℝ) : ℂ)) =
      ((700 / 17 : ℝ) : ℂ) + ((70 * Real.sqrt 70 / 17 : ℝ) : ℂ) * Complex.I from by
    rw [one_div]
    apply inv_eq_of_mul_eq_one_right
    push_cast
    ring_nf
    simp only [Complex.I_sq, csqrt70_sq, cI_cube, csqrt70_cube]
    ring_nf]
  rw [tline_eval _ (10 * Real.sqrt 70) (π - π / 4) cos_3pi4_ok]
  rw [tan_3pi4_eq]
  rw [show ((10 * Real.sqrt 70 : ℝ) : ℂ) *
      ((((700 / 17 : ℝ) : ℂ) + ((70 * Real.sqrt 70 / 17 : ℝ) : ℂ) * Complex.I) +
        ((10 * Real.sqrt 70 : ℝ) : ℂ) * (Complex.I * ((-1 : ℝ) : ℂ))) /
      (((10 * Real.sqrt 70 : ℝ) : ℂ) +
        (((700 / 17 : ℝ) : ℂ) + ((70 * Real.sqrt 70 / 17 : ℝ) : ℂ) * Complex.I) *
          (Complex.I * ((-1 : ℝ) : ℂ))) =
      ((700 / 19 : ℝ) : ℂ) - ((50 * Real.sqrt 70 / 19 : ℝ) : ℂ) * Complex.I from by
    have hD4 : (((10 * Real.sqrt 70 : ℝ) : ℂ) +
        (((700 / 17 : ℝ) : ℂ) + ((70 * Real.sqrt 70 / 17 : ℝ) : ℂ) * Complex.I) *
          (Complex.I * ((-1 : ℝ) : ℂ))) ≠ 0 := by
      intro h
      have him := congrArg Complex.im h
      simp [Complex.add_im, Complex.mul_im, Complex.mul_re, Complex.I_re,
        Complex.I_im, Complex.ofReal_re, Complex.ofReal_im] at him
    rw [div_eq_iff hD4]
    push_cast
    ring_nf
    simp only [Complex.I_sq, csqrt70_sq, cI_cube, csqrt70_cube]
    ring_nf]
  have hz4inv : (1 : ℂ) / (((700 / 19 : ℝ) : ℂ) - ((50 * Real.sqrt 70 / 19 : ℝ) : ℂ) *
      Complex.I) = ((1 / 50 : ℝ) : ℂ) + ((Real.sqrt 70 / 700 : ℝ) : ℂ) * Complex.I := by
    rw [one_div]
    apply inv_eq_of_mul_eq_one_right
    push_cast
    ring_nf
    simp only [Complex.I_sq, csqrt70_sq, cI_cube, csqrt70_cube]
    ring_nf
  rw [show (1 : ℂ) / (((700 / 19 : ℝ) : ℂ) - ((50 * Real.sqrt 70 / 19 : ℝ) : ℂ) *
      Complex.I) + Complex.I * ((Real.sqrt 70 / 700 : ℝ) : ℂ) * ((-1 : ℝ) : ℂ) =
      ((1 / 50 : ℝ) : ℂ) from by
    rw [hz4inv]
    push_cast
    ring]
  rw [show (1 : ℂ) / ((1 / 50 : ℝ) : ℂ) = ((50 : ℝ) : ℂ) by push_cast; norm_num]
  exact vswr_of_matched 50

/-- The full pipeline at grid point `(0, 1)` of input B emits the exact
candidate `cB` with `theta1 = π/3 + π` and perfect VSWR at both frequencies. -/
theorem processB : processPoint 1 3 ZB1 ZB2 50 true 0 1 = some cB := by
  have haux1 : aux_applied_load ZB1 0 (pfrac1 1 3) = ZB1 := by
    unfold aux_applied_load
    simp
  have haux2 : aux_applied_load ZB2 0 (pfrac2 1 3) = ZB2 := by
    unfold aux_applied_load
    simp
  simp only [processPoint]
  rw [haux1, haux2, conjB]
  dsimp only
  rw [checkB]
  dsimp only
  rw [matchB]
  dsimp only
  rw [synthB]
  dsimp only
  rw [if_neg (lt_irrefl 0)]
  rw [verifyB_f1, verifyB_f2]
  unfold cB
  norm_num

/-- Inversion for a successful conjugate-match stage: the returned angle is the
normalized base angle plus `k·π`, and `Z1` is the square root of the radicand. -/
theorem conj_some_elim {ZL1 ZL2 : ℂ} {pf1 : ℝ} {k : ℕ} {d : ConjResult}
    (h : calculate_conjugate_transform ZL1 ZL2 pf1 k = some d) :
    d.theta1 = conj_theta_base ZL1 ZL2 + k * π ∧
      d.Z1 = Real.sqrt (conj_radicand ZL1 ZL2) := by
  unfold calculate_conjugate_transform at h
  split_ifs at h
  have hd := Option.some.inj h
  subst hd
  exact ⟨rfl, rfl⟩

/-- The normalized base angle of the conjugate stage lies in `[0, π)`. -/
theorem conj_theta_base_bounds (ZL1 ZL2 : ℂ) :
    0 ≤ conj_theta_base ZL1 ZL2 ∧ conj_theta_base ZL1 ZL2 < π := by
  have hpi := Real.pi_pos
  unfold conj_theta_base
  by_cases hden : |ZL2.re * ZL1.im - ZL1.re * ZL2.im| < 1e-9
  · simp only [if_pos hden]
    rw [if_neg (by linarith : ¬ π / 2 < 0)]
    constructor <;> linarith
  · simp only [if_neg hden]
    set q := Real.sqrt (conj_radicand ZL1 ZL2) * (ZL2.re - ZL1.re) /
      (ZL2.re * ZL1.im - ZL1.re * ZL2.im)
    have h1 := Real.arctan_lt_pi_div_two q
    have h2 := Real.neg_pi_div_two_lt_arctan q
    by_cases hneg : Real.arctan q < 0
    · rw [if_pos hneg]
      constructor <;> linarith
    · rw [if_neg hneg]
      push_neg at hneg
      constructor <;> linarith

/-- Inversion for a successful pi-line stage: `theta_T1 ∈ (0, π]`. -/
theorem matching_theta_T1_bounds (Zin : ℂ) (ZS : ℝ) (m : PiLine)
    (h : calculate_matching_network Zin ZS = some m) :
    0 < m.theta_T1 ∧ m.theta_T1 ≤ π := by
  have hpi := Real.pi_pos
  simp only [calculate_matching_network] at h
  by_cases hterm : Zin.im ^ 2 * ZS / (Zin.re - ZS) + Zin.re * ZS < 0
  · rw [if_pos hterm] at h
    exact absurd h (by simp)
  rw [if_neg hterm] at h
  have hm := Option.some.inj h
  subst hm
  dsimp only
  by_cases hden : |Zin.im * ZS| < 1e-9
  · simp only [if_pos hden]
    rw [if_neg (by linarith : ¬ π / 2 ≤ 0)]
    constructor <;> linarith
  · simp only [if_neg hden]
    set q := Real.sqrt (Zin.im ^ 2 * ZS / (Zin.re - ZS) + Zin.re * ZS) *
      (ZS - Zin.re) / (Zin.im * ZS)
    have h1 := Real.arctan_lt_pi_div_two q
    have h2 := Real.neg_pi_div_two_lt_arctan q
    by_cases hneg : Real.arctan q ≤ 0
    · rw [if_pos hneg]
      constructor <;> linarith
    · rw [if_neg hneg]
      push_neg at hneg
      constructor <;> linarith

/-- Every grid point carries branch `k = 0` or `k = 1`. -/
theorem searchGrid_k (scan : Bool) (q : ℕ × ℕ) (h : q ∈ searchGrid scan) :
    q.2 = 0 ∨ q.2 = 1 := by
  unfold searchGrid at h
  rw [List.mem_flatMap] at h
  obtain ⟨a, -, hq⟩ := h
  simp only [List.mem_cons, List.mem_singleton] at hq
  rcases hq with hq | hq | hq
  · left; rw [hq]
  · right; rw [hq]
  · exact absurd hq (by simp)

/-- With remediation allowed, `check_region_and_adjust` never reports region `c`. -/
theorem check_region_allow_ne_c (Zin1 : ℂ) (Z0 pf1 : ℝ) :
    (check_region_and_adjust Zin1 Z0 pf1 true).1 ≠ Region.c := by
  unfold check_region_and_adjust
  cases classify_region Zin1 Z0 <;> simp

/-- Inversion for an emitted grid point: the candidate's fields come from the
successful conjugate and pi-line stages. -/
theorem processPoint_inv {f1 f2 : ℝ} {ZL1 ZL2 : ℂ} {Z0 : ℝ} {allow : Bool}
    {th k : ℕ} {c : DesignCandidate}
    (h : processPoint f1 f2 ZL1 ZL2 Z0 allow th k = some c) :
    ∃ d m, calculate_conjugate_transform (aux_applied_load ZL1 th (pfrac1 f1 f2))
        (aux_applied_load ZL2 th (pfrac2 f1 f2)) (pfrac1 f1 f2) k = some d ∧
      calculate_matching_network
        (check_region_and_adjust d.Z_in1 Z0 (pfrac1 f1 f2) allow).2.2 Z0 = some m ∧
      c.region = (check_region_and_adjust d.Z_in1 Z0 (pfrac1 f1 f2) allow).1 ∧
      c.theta1 = d.theta1 ∧ c.theta_T1 = m.theta_T1 := by
  simp only [processPoint] at h
  split at h
  · exact absurd h (by simp)
  rename_i d hconj
  split at h
  · exact absurd h (by simp)
  rename_i m hmat
  have hc := Option.some.inj h
  subst hc
  exact ⟨d, m, hconj, hmat, rfl, rfl, rfl⟩

/-! ## Claim theorems -/

/-- Claim C9: the design-frequency fractions `p1 = f1/(f1+f2)` and
`p2 = f2/(f1+f2)` sum to `1` for any positive `f1`, `f2`. -/
theorem claim_C9_fractions_sum (f1 f2 : ℝ) (h1 : 0 < f1) (h2 : 0 < f2) :
    pfrac1 f1 f2 + pfrac2 f1 f2 = 1 := by
  unfold pfrac1 pfrac2
  rw [div_add_div_same, div_self (by linarith : f1 + f2 ≠ 0)]

/-- Witness for C9 at `f1 = 1`, `f2 = 2`. -/
theorem claim_C9_witness : pfrac1 1 2 + pfrac2 1 2 = 1 :=
  claim_C9_fractions_sum 1 2 (by norm_num) (by norm_num)

/-- Claim C7: with scanning disabled the grid is exactly the two points
`(0°, k=0)` and `(0°, k=1)`; with scanning enabled it is the 36 angles
`0°, 5°, …, 175°` crossed with `k ∈ {0,1}`, i.e. 72 points. -/
theorem claim_C7_grid_size :
    searchGrid false = [(0, 0), (0, 1)] ∧ (searchGrid true).length = 72 ∧
      theta_aux_range true =
        [0, 5, 10, 15, 20, 25, 30, 35, 40, 45, 50, 55, 60, 65, 70, 75, 80, 85,
          90, 95, 100, 105, 110, 115, 120, 125, 130, 135, 140, 145, 150, 155,
          160, 165, 170, 175] := by
  refine ⟨by decide, by decide, by decide⟩

/-- Claim C10: `synthesize_pi_network` always assigns a nonzero `Y_n`, so the
stub impedance `Z_n = 1/Y_n` is well-defined (`Z_n · Y_n = 1`). -/
theorem claim_C10_Yn_nonzero (ZT1 thT1 pf1 : ℝ) :
    (synthesize_pi_network ZT1 thT1 pf1).Y_n ≠ 0 ∧
      (synthesize_pi_network ZT1 thT1 pf1).Z_n *
        (synthesize_pi_network ZT1 thT1 pf1).Y_n = 1 := by
  by_cases h1 : 0 < piY_open ZT1 thT1 pf1
  · simp only [synthesize_pi_network, if_pos h1]
    exact ⟨ne_of_gt h1, one_div_mul_cancel (ne_of_gt h1)⟩
  · by_cases h2 : 0 < piY_short ZT1 thT1 pf1
    · simp only [synthesize_pi_network, if_neg h1, if_pos h2]
      exact ⟨ne_of_gt h2, one_div_mul_cancel (ne_of_gt h2)⟩
    · by_cases h3 : piY_open ZT1 thT1 pf1 ≠ 0
      · simp only [synthesize_pi_network, if_neg h1, if_neg h2, if_pos h3]
        exact ⟨h3, one_div_mul_cancel h3⟩
      · simp only [synthesize_pi_network, if_neg h1, if_neg h2, if_neg h3]
        norm_num

/-- Claim C8 (amended): the VSWR computed by the verification stage is `≥ 1`
whenever the reflection coefficient has magnitude `< 1`. -/
theorem claim_C8_vswr_ge_one (z : ℂ) (Z0 : ℝ)
    (h : Complex.abs ((z - (Z0 : ℂ)) / (z + (Z0 : ℂ))) < 1) :
    1 ≤ vswr_of z Z0 := by
  unfold vswr_of
  have ha : 0 ≤ Complex.abs ((z - (Z0 : ℂ)) / (z + (Z0 : ℂ))) :=
    AbsoluteValue.nonneg _ _
  rw [le_div_iff₀ (by linarith)]
  linarith

/-- Witness for C8 at a perfectly matched port: `z = Z0 = 50` gives VSWR `1 ≥ 1`. -/
theorem claim_C8_witness : 1 ≤ vswr_of 50 50 :=
  claim_C8_vswr_ge_one 50 50 (by norm_num)

/-- Claim C3: the conjugate-match stage fails exactly on nearly equal load
resistances or a negative radicand, and a failed stage makes the search loop
discard the grid point without emitting a candidate. -/
theorem claim_C3_conjugate_failure :
    (∀ (ZL1 ZL2 : ℂ) (pf1 : ℝ) (k : ℕ),
      calculate_conjugate_transform ZL1 ZL2 pf1 k = none ↔
        |ZL2.re - ZL1.re| < 1e-6 ∨ conj_radicand ZL1 ZL2 < 0) ∧
    (∀ (f1 f2 : ℝ) (ZL1 ZL2 : ℂ) (Z0 : ℝ) (allow : Bool) (th k : ℕ),
      calculate_conjugate_transform (aux_applied_load ZL1 th (pfrac1 f1 f2))
        (aux_applied_load ZL2 th (pfrac2 f1 f2)) (pfrac1 f1 f2) k = none →
      processPoint f1 f2 ZL1 ZL2 Z0 allow th k = none) := by
  constructor
  · intro ZL1 ZL2 pf1 k
    unfold calculate_conjugate_transform
    split_ifs with h1 h2
    · simp [h1]
    · simp [h1, h2]
    · exact iff_of_false (by simp) (by tauto)
  · intro f1 f2 ZL1 ZL2 Z0 allow th k h
    simp only [processPoint]
    rw [h]

/-- Witness for C3: equal loads `Z_L1 = Z_L2 = 1` fail the stage and the grid
point `(0, 0)` is discarded. -/
theorem claim_C3_witness : processPoint 1 2 1 1 50 false 0 0 = none := by
  apply claim_C3_conjugate_failure.2
  rw [claim_C3_conjugate_failure.1]
  left
  norm_num [aux_applied_load]

/-- Claim C5: for the same loads, the branch `k = 1` conjugate angle is the
branch `k = 0` angle plus `π` (the negative-angle correction is inside the
shared base angle, applied before the branch offset). -/
theorem claim_C5_branch_offset (ZL1 ZL2 : ℂ) (pf1 : ℝ) (d0 d1 : ConjResult)
    (h0 : calculate_conjugate_transform ZL1 ZL2 pf1 0 = some d0)
    (h1 : calculate_conjugate_transform ZL1 ZL2 pf1 1 = some d1) :
    d1.theta1 = d0.theta1 + π := by
  rw [(conj_some_elim h0).1, (conj_some_elim h1).1]
  push_cast
  ring

/-- Claim C4: when neither stub admittance is positive the code does not fail:
both remediation sites substitute the placeholder `0.02`, and emission depends
only on the two fallible stages, not on stub positivity. -/
theorem claim_C4_fallback_placeholder :
    (∀ (Zin1 : ℂ) (pf1 : ℝ), ¬ 0 < auxY2open Zin1 pf1 → ¬ 0 < auxY2short Zin1 pf1 →
      (add_auxiliary_stub Zin1 pf1).Y2 = 0.02) ∧
    (∀ ZT1 thT1 pf1 : ℝ, ¬ 0 < piY_open ZT1 thT1 pf1 → ¬ 0 < piY_short ZT1 thT1 pf1 →
      (synthesize_pi_network ZT1 thT1 pf1).Y_n = 0.02) ∧
    (∀ (f1 f2 : ℝ) (ZL1 ZL2 : ℂ) (Z0 : ℝ) (allow : Bool) (th k : ℕ)
      (d : ConjResult) (m : PiLine),
      calculate_conjugate_transform (aux_applied_load ZL1 th (pfrac1 f1 f2))
        (aux_applied_load ZL2 th (pfrac2 f1 f2)) (pfrac1 f1 f2) k = some d →
      calculate_matching_network
        (check_region_and_adjust d.Z_in1 Z0 (pfrac1 f1 f2) allow).2.2 Z0 = some m →
      (processPoint f1 f2 ZL1 ZL2 Z0 allow th k).isSome = true) := by
  refine ⟨?_, ?_, ?_⟩
  · intro Zin1 pf1 h1 h2
    simp only [add_auxiliary_stub, if_neg h1, if_neg h2]
  · intro ZT1 thT1 pf1 h1 h2
    have hopen0 : piY_open ZT1 thT1 pf1 = 0 := by
      by_contra hne
      rcases lt_or_le (1e-9) |Real.tan (pf1 * π)| with hc | hc
      · have hval : piY_open ZT1 thT1 pf1 =
            pi_B_n1 ZT1 thT1 pf1 / Real.tan (pf1 * π) := by
          unfold piY_open
          rw [if_pos hc]
        have hlt : pi_B_n1 ZT1 thT1 pf1 / Real.tan (pf1 * π) < 0 := by
          rw [hval] at h1 hne
          exact lt_of_le_of_ne (not_lt.mp h1) hne
        rcases div_neg_iff.mp hlt with ⟨hB, ht⟩ | ⟨hB, ht⟩
        · exact h2 (by unfold piY_short; nlinarith)
        · exact h2 (by unfold piY_short; nlinarith)
      · exact hne (by unfold piY_open; rw [if_neg (not_lt.mpr hc)])
    simp only [synthesize_pi_network, if_neg h1, if_neg h2, hopen0, ne_eq,
      not_true_eq_false, if_false, ite_self]
    norm_num
  · intro f1 f2 ZL1 ZL2 Z0 allow th k d m hd hm
    simp only [processPoint]
    rw [hd]
    dsimp only
    rw [hm]
    rfl

/-- Claim C2 (amended): with `allow_aux_stub = true` no emitted candidate
carries region tag `c` (a region-c point is remediated and retagged `a`). -/
theorem claim_C2_no_region_c (f1 f2 : ℝ) (ZL1 ZL2 : ℂ) (Z0 : ℝ) (scan : Bool)
    (c : DesignCandidate) (h : c ∈ find_all_designs f1 f2 ZL1 ZL2 Z0 true scan) :
    c.region ≠ Region.c := by
  unfold find_all_designs at h
  rw [List.mem_filterMap] at h
  obtain ⟨q, -, hq⟩ := h
  obtain ⟨d, m, -, -, hreg, -, -⟩ := processPoint_inv hq
  rw [hreg]
  exact check_region_allow_ne_c _ _ _

/-- Claim C6 (amended): every emitted candidate has `theta_T1 ∈ (0, π]`, while
`theta1` is only guaranteed to lie in `[0, 2π)` (base angle in `[0, π)` plus
the branch offset `k·π`, `k ∈ {0,1}`). -/
theorem claim_C6_angle_ranges (f1 f2 : ℝ) (ZL1 ZL2 : ℂ) (Z0 : ℝ)
    (allow scan : Bool) (c : DesignCandidate)
    (h : c ∈ find_all_designs f1 f2 ZL1 ZL2 Z0 allow scan) :
    (0 < c.theta_T1 ∧ c.theta_T1 ≤ π) ∧ (0 ≤ c.theta1 ∧ c.theta1 < 2 * π) := by
  unfold find_all_designs at h
  rw [List.mem_filterMap] at h
  obtain ⟨q, hqmem, hq⟩ := h
  obtain ⟨d, m, hconj, hmat, -, hth1, hthT⟩ := processPoint_inv hq
  constructor
  · rw [hthT]
    exact matching_theta_T1_bounds _ _ _ hmat
  · rw [hth1, (conj_some_elim hconj).1]
    have hbase := conj_theta_base_bounds (aux_applied_load ZL1 q.1 (pfrac1 f1 f2))
      (aux_applied_load ZL2 q.1 (pfrac2 f1 f2))
    have hpi := Real.pi_pos
    rcases searchGrid_k scan q hqmem with hk | hk <;> rw [hk] <;> push_cast <;>
      constructor <;> linarith [hbase.1, hbase.2]

/-- Claim C6 counterexample: input B emits a candidate with
`theta1 = π/3 + π > π`, refuting "theta1 of every emitted candidate lies in
`(0, π]`". -/
theorem claim_C6_counterexample :
    ¬ ∀ c ∈ find_all_designs 1 3 ZB1 ZB2 50 true false,
      0 < c.theta1 ∧ c.theta1 ≤ π := by
  intro h
  have hmem : cB ∈ find_all_designs 1 3 ZB1 ZB2 50 true false := by
    unfold find_all_designs
    exact List.mem_filterMap.mpr ⟨(0, 1), by decide, processB⟩
  have h0 := (h cB hmem).2
  rw [show cB.theta1 = π / 3 + π from rfl] at h0
  linarith [Real.pi_pos]

/-- Witness for the amended C6 on the emitted candidate `cB`. -/
theorem claim_C6_witness :
    (0 < cB.theta_T1 ∧ cB.theta_T1 ≤ π) ∧ (0 ≤ cB.theta1 ∧ cB.theta1 < 2 * π) :=
  claim_C6_angle_ranges 1 3 ZB1 ZB2 50 true false cB (by
    unfold find_all_designs
    exact List.mem_filterMap.mpr ⟨(0, 1), by decide, processB⟩)

/-- Witness for the amended C2 on the emitted candidate `cB`, whose region-c
classification was remediated to region `a`. -/
theorem claim_C2_witness : cB.region ≠ Region.c :=
  claim_C2_no_region_c 1 3 ZB1 ZB2 50 false cB (by
    unfold find_all_designs
    exact List.mem_filterMap.mpr ⟨(0, 1), by decide, processB⟩)

/-- Witness for C5: at input A both branches succeed and the `k = 1` angle is
the `k = 0` angle plus `π`. -/
theorem claim_C5_witness :
    (calculate_conjugate_transform ZA1 ZA2 (pfrac1 1 2) 0).map ConjResult.theta1 =
      some (π / 2) ∧
    (calculate_conjugate_transform ZA1 ZA2 (pfrac1 1 2) 1).map ConjResult.theta1 =
      some (π / 2 + π) := by
  constructor
  · rw [conjA0]
    rfl
  · rw [conjA1]
    exact congrArg some
      (claim_C5_branch_offset ZA1 ZA2 (pfrac1 1 2) _ _ conjA0 conjA1)

/-- Witness for C4: a real `Z_in1 = 25` makes both tried aux-stub admittances
zero, driving the `0.02` placeholder; `theta_T1 = p1·π` does the same in the
pi network; and the fallback-free emission fact holds at input B. -/
theorem claim_C4_witness :
    (add_auxiliary_stub 25 (pfrac1 1 2)).Y2 = 0.02 ∧
    (synthesize_pi_network 1 (π / 3) (pfrac1 1 2)).Y_n = 0.02 ∧
    (processPoint 1 3 ZB1 ZB2 50 true 0 1).isSome = true := by
  have ht : aux_targetB (25 : ℂ) = 0 := by
    unfold aux_targetB
    simp
  have hYo : auxY2open (25 : ℂ) (pfrac1 1 2) = 0 := by
    unfold auxY2open
    rw [ht, zero_div, ite_self]
  have hYs : auxY2short (25 : ℂ) (pfrac1 1 2) = 0 := by
    unfold auxY2short
    rw [ht]
    ring
  have hB : pi_B_n1 1 (π / 3) (pfrac1 1 2) = 0 := by
    unfold pi_B_n1
    rw [pfA, sub_self, zero_div]
  have hYo2 : piY_open 1 (π / 3) (pfrac1 1 2) = 0 := by
    unfold piY_open
    rw [hB, zero_div, ite_self]
  have hYs2 : piY_short 1 (π / 3) (pfrac1 1 2) = 0 := by
    unfold piY_short
    rw [hB]
    ring
  refine ⟨?_, ?_, ?_⟩
  · exact claim_C4_fallback_placeholder.1 25 (pfrac1 1 2)
      (by rw [hYo]; exact lt_irrefl 0) (by rw [hYs]; exact lt_irrefl 0)
  · exact claim_C4_fallback_placeholder.2.1 1 (π / 3) (pfrac1 1 2)
      (by rw [hYo2]; exact lt_irrefl 0) (by rw [hYs2]; exact lt_irrefl 0)
  · refine claim_C4_fallback_placeholder.2.2 1 3 ZB1 ZB2 50 true 0 1
      ⟨Real.sqrt 400, π / 3 + π, ZinB⟩ ⟨Real.sqrt 3500, π / 2⟩ ?_ ?_
    · rw [show aux_applied_load ZB1 0 (pfrac1 1 3) = ZB1 from by
        unfold aux_applied_load; simp]
      rw [show aux_applied_load ZB2 0 (pfrac2 1 3) = ZB2 from by
        unfold aux_applied_load; simp]
      exact conjB
    · show calculate_matching_network
        (check_region_and_adjust ZinB 50 (pfrac1 1 3) true).2.2 50 =
        some ⟨Real.sqrt 3500, π / 2⟩
      rw [checkB]
      exact matchB

end
